import Mathlib

/-!
Verification development for the code-execution MCP server.

The repository contains two parallel implementations of the tool:
the top-level one (`src/code_execution_tool.py`, `src/main.py`,
`src/helpers/shell_utils.py`) and the packaged one
(`src/code_execution_mcp/code_execution_tool.py`, `src/code_execution_mcp/main.py`).
Both are embedded below.  Pure string processing (the sanitizers, the regular
expression patterns) is embedded directly; the polling loop of
`get_terminal_output` is embedded as a pure function over a trace of reads;
the dispatcher (`terminal_session`, `execute_python_code`, `prepare_state`,
`reset_terminal`) is embedded as a state-passing function that records its
side effects (closes, connects, sends, reads) in an explicit action log.

Time is modelled with integers: the loop observes a timestamp at each read.
The low-level interactive process driver (`helpers/shell_local.py`) is not in
the sources; per the specification it is an external collaborator, and its
reads appear here as an environment trace.
-/

namespace CodeExec

/-! ### Character classes used by the Python code -/

/-- Whitespace characters stripped by the Python `str.strip` family
(ASCII: space, tab, newline, carriage return, vertical tab, form feed). -/
def isPySpace (c : Char) : Bool :=
  c = ' ' || c = '\t' || c = '\n' || c = '\r' || c = '\x0b' || c = '\x0c'

/-- Characters on which Python `str.splitlines` breaks lines. -/
def isLineBreakChar (c : Char) : Bool :=
  c = '\n' || c = '\r' || c = '\x0b' || c = '\x0c' ||
  c = '\x1c' || c = '\x1d' || c = '\x1e' ||
  c = (Char.ofNat 133) || c = (Char.ofNat 8232) || c = (Char.ofNat 8233)

/-- Hexadecimal digits, as matched by the regex class `[0-9A-Fa-f]`. -/
def isHexDigitChar (c : Char) : Bool :=
  c.isDigit || ('a' ≤ c && c ≤ 'f') || ('A' ≤ c && c ≤ 'F')

/-- Space or carriage return, the class `[ \r]` and the argument of
Python `lstrip` with chars `\r` and space. -/
def isSpaceCR (c : Char) : Bool :=
  c = ' ' || c = '\r'

/-! ### Python string primitives (on `List Char`) -/

/-- Auxiliary for `pySplitlines`: accumulates the current line (reversed). -/
def pySplitlinesAux : List Char → List Char → List (List Char)
  | [], acc => if acc.isEmpty then [] else [acc.reverse]
  | '\r' :: '\n' :: rest, acc => acc.reverse :: pySplitlinesAux rest []
  | c :: rest, acc =>
    if isLineBreakChar c then acc.reverse :: pySplitlinesAux rest []
    else pySplitlinesAux rest (c :: acc)

/-- Python `str.splitlines()` (without `keepends`). -/
def pySplitlines (l : List Char) : List (List Char) :=
  pySplitlinesAux l []

/-- Python `str.split(sep)` for a one-character separator. -/
def pySplitChar (sep : Char) : List Char → List (List Char)
  | [] => [[]]
  | c :: rest =>
    if c = sep then [] :: pySplitChar sep rest
    else
      match pySplitChar sep rest with
      | h :: t => (c :: h) :: t
      | [] => [[c]]

/-- Python `str.strip()`: remove leading and trailing whitespace. -/
def pyStrip (l : List Char) : List Char :=
  ((l.dropWhile isPySpace).reverse.dropWhile isPySpace).reverse

/-- Python `str.rstrip()`: remove trailing whitespace. -/
def pyRstrip (l : List Char) : List Char :=
  (l.reverse.dropWhile isPySpace).reverse

/-- Python `"\n".join(...)` on a list of lines. -/
def joinLines : List (List Char) → List Char
  | [] => []
  | [p] => p
  | p :: rest => p ++ '\n' :: joinLines rest

/-! ### Derivative-based regular-expression matcher

The Python code uses `re` with a fixed set of patterns; they are embedded
as regular expressions over character classes and matched with Brzozowski
derivatives.  `search` with an end anchor (`$`) holds iff some suffix is a
full match; `search` without an anchor holds iff some substring is a full
match. -/

/-- Regular expressions over decidable character classes. -/
inductive RE where
  | eps : RE
  | cls (p : Char → Bool) : RE
  | cat (a b : RE) : RE
  | alt (a b : RE) : RE
  | star (a : RE) : RE

/-- Nullability: whether the expression accepts the empty word. -/
def RE.nullable : RE → Bool
  | .eps => true
  | .cls _ => false
  | .cat a b => a.nullable && b.nullable
  | .alt a b => a.nullable || b.nullable
  | .star _ => true

/-- Brzozowski derivative with respect to one character. -/
def RE.deriv : RE → Char → RE
  | .eps, _ => .cls fun _ => false
  | .cls p, c => if p c then .eps else .cls fun _ => false
  | .cat a b, c =>
    if a.nullable then .alt (.cat (a.deriv c) b) (b.deriv c)
    else .cat (a.deriv c) b
  | .alt a b, c => .alt (a.deriv c) (b.deriv c)
  | .star a, c => .cat (a.deriv c) (.star a)

/-- Full match of a word against an expression. -/
def reMatch (r : RE) : List Char → Bool
  | [] => r.nullable
  | c :: cs => reMatch (r.deriv c) cs

/-- Some (possibly empty) leading segment of the word matches. -/
def reMatchesSomeStart (r : RE) : List Char → Bool
  | [] => r.nullable
  | c :: cs => r.nullable || reMatchesSomeStart (r.deriv c) cs

/-- Python `pat.search` for a pattern ending in the `$` anchor: some suffix
of the word is a full match of the pattern body. -/
def searchEnd (r : RE) (l : List Char) : Bool :=
  l.tails.any (reMatch r)

/-- Python `pat.search` for an unanchored pattern: some substring matches. -/
def reSearch (r : RE) (l : List Char) : Bool :=
  l.tails.any (reMatchesSomeStart r)

/-- One-or-more repetition `r+`. -/
def RE.plus (r : RE) : RE := .cat r (.star r)

/-- Zero-or-one repetition `r?`. -/
def RE.opt (r : RE) : RE := .alt .eps r

/-- Literal character. -/
def RE.chr (c : Char) : RE := .cls (· = c)

/-- Literal word. -/
def RE.lit (s : List Char) : RE :=
  s.foldr (fun c acc => RE.cat (RE.chr c) acc) RE.eps

/-- Case-insensitive literal character (the `re.IGNORECASE` flag on letters). -/
def RE.chrIC (c : Char) : RE := .cls (fun d => d = c.toLower || d = c.toUpper)

/-- Case-insensitive literal word. -/
def RE.litIC (s : List Char) : RE :=
  s.foldr (fun c acc => RE.cat (RE.chrIC c) acc) RE.eps

/-! ### The prompt and dialog patterns of `get_terminal_output` -/

/-- Regex `.` (any character but newline, Python default). -/
def anyCharRE : RE := .cls (· ≠ '\n')

/-- Pattern `\(venv\).+[$#] ?$` (body, before the anchor). -/
def venvPat : RE :=
  .cat (.lit "(venv)".data)
    (.cat (RE.plus anyCharRE)
      (.cat (.cls fun c => c = '$' || c = '#') (RE.opt (RE.chr ' '))))

/-- Pattern `root@[^:]+:[^#]+# ?$` (body, before the anchor). -/
def rootPat : RE :=
  .cat (.lit "root@".data)
    (.cat (RE.plus (.cls (· ≠ ':')))
      (.cat (RE.chr ':')
        (.cat (RE.plus (.cls (· ≠ '#')))
          (.cat (RE.chr '#') (RE.opt (RE.chr ' '))))))

/-- Character class `[a-zA-Z0-9_.-]`. -/
def userChar (c : Char) : Bool :=
  c.isAlpha || c.isDigit || c = '_' || c = '.' || c = '-'

/-- Pattern `[a-zA-Z0-9_.-]+@[^:]+:[^$#]+[$#] ?$` (body, before the anchor). -/
def userPat : RE :=
  .cat (RE.plus (.cls userChar))
    (.cat (RE.chr '@')
      (.cat (RE.plus (.cls (· ≠ ':')))
        (.cat (RE.chr ':')
          (.cat (RE.plus (.cls fun c => c ≠ '$' && c ≠ '#'))
            (.cat (.cls fun c => c = '$' || c = '#') (RE.opt (RE.chr ' ')))))))

/-- Pattern `bash-\d+\.\d+\$ ?$` (body, before the anchor). -/
def bashPat : RE :=
  .cat (.lit "bash-".data)
    (.cat (RE.plus (.cls Char.isDigit))
      (.cat (RE.chr '.')
        (.cat (RE.plus (.cls Char.isDigit))
          (.cat (RE.chr '$') (RE.opt (RE.chr ' '))))))

/-- The list `prompt_patterns` of `get_terminal_output`; all four patterns
are anchored at the end of the line. -/
def promptPats : List RE := [venvPat, rootPat, userPat, bashPat]

/-- Pattern `Y/N` with `re.IGNORECASE` (unanchored). -/
def ynPat : RE := RE.litIC "y/n".data

/-- Pattern `yes/no` with `re.IGNORECASE` (unanchored). -/
def yesnoPat : RE := RE.litIC "yes/no".data

/-- Pattern `:\s*$` (body, before the anchor). -/
def colonEndPat : RE := .cat (RE.chr ':') (.star (.cls isPySpace))

/-- Pattern `\?\s*$` (body, before the anchor). -/
def questionEndPat : RE := .cat (RE.chr '?') (.star (.cls isPySpace))

/-- Whether one line (after `line.strip()`) matches some shell prompt
pattern, as in the inner loop of `get_terminal_output`. -/
def promptLineHit (line : List Char) : Bool :=
  promptPats.any fun p => searchEnd p (pyStrip line)

/-- Whether one line (after `line.strip()`) matches some dialog pattern. -/
def dialogLineHit (line : List Char) : Bool :=
  let ls := pyStrip line
  reSearch ynPat ls || reSearch yesnoPat ls ||
  searchEnd colonEndPat ls || searchEnd questionEndPat ls

/-! ### The acquisition-time sanitizer `fix_full_output` -/

/-- Left-to-right scan of `re.sub(r"(?<!\\)\\x[0-9A-Fa-f]{2}", "", output)`:
removes backslash-x-hex-hex sequences whose preceding character in the
original string (the negative lookbehind) is not a backslash.  The first
argument is fuel (each step consumes at least one character, so fuel equal
to the length, as the wrapper passes, is never exhausted, the zero-fuel
case arising only on the empty word it returns unchanged); the second is
the character just before the current position. -/
def stripHexEscF : Nat → Option Char → List Char → List Char
  | 0, _, l => l
  | _ + 1, _, [] => []
  | fuel + 1, prev, '\\' :: 'x' :: a :: b :: rest2 =>
    if prev ≠ some '\\' && isHexDigitChar a && isHexDigitChar b then
      stripHexEscF fuel (some b) rest2
    else '\\' :: stripHexEscF fuel (some '\\') ('x' :: a :: b :: rest2)
  | fuel + 1, _, '\\' :: rest => '\\' :: stripHexEscF fuel (some '\\') rest
  | fuel + 1, _, c :: rest => c :: stripHexEscF fuel (some c) rest

/-- The hex-escape removal on a whole word (fuel equal to the length is
never exhausted, each step consuming at least one character). -/
def stripHexEsc (prev : Option Char) (l : List Char) : List Char :=
  stripHexEscF l.length prev l

/-- Modelled from the spec: `helpers/strings.truncate_text` is not among the
sources; the specification says output is capped to a fixed maximum length,
keeping the tail (the most recent output) when truncating. -/
def truncate_text (l : List Char) (threshold : Nat) : List Char :=
  if l.length ≤ threshold then l else l.drop (l.length - threshold)

/-- Embedding of `CodeExecutionTool.fix_full_output`: remove unescaped
`\xNN` sequences, strip every line, truncate to about 1MB keeping the tail. -/
def fix_full_output (s : String) : String :=
  let l := stripHexEsc none s.data
  let l := joinLines ((pySplitlines l).map pyStrip)
  String.mk (truncate_text l 1000000)

/-! ### The polling loop of `get_terminal_output` -/

/-- Python `l[-n:]`. -/
def lastN (n : Nat) (l : List (List Char)) : List (List Char) :=
  l.drop (l.length - n)

/-- The shell-prompt check performed when new output arrives: take the last
up-to-3 lines of the sanitized output (`splitlines()[-3:]`), reverse them,
and test each against the prompt patterns. -/
def promptDetected (out : String) : Bool :=
  let ls := if out ≠ "" then lastN 3 (pySplitlines out.data) else []
  ls.reverse.any promptLineHit

/-- The dialog check: take the last up-to-2 lines (`splitlines()[-2:]`) and
test each against the dialog patterns. -/
def dialogDetected (out : String) : Bool :=
  let ls := if out ≠ "" then lastN 2 (pySplitlines out.data) else []
  ls.any dialogLineHit

/-- Stated from the words of the spec, for comparison with `promptDetected`:
inspect the last up-to-3 NON-EMPTY lines, most recent first. -/
def promptDetectedSpec (out : String) : Bool :=
  (lastN 3 ((pySplitlines out.data).filter (fun l => !l.isEmpty))).reverse.any promptLineHit

/-- Stated from the words of the spec, for comparison with `dialogDetected`:
inspect the last up-to-2 NON-EMPTY lines. -/
def dialogDetectedSpec (out : String) : Bool :=
  (lastN 2 ((pySplitlines out.data).filter (fun l => !l.isEmpty))).any dialogLineHit

/-- The four timeouts configured on the tool; the defaults of the source are
first 30, between 15, dialog 5, max 180. -/
structure Timeouts where
  firstOutput : Int
  betweenOutput : Int
  dialog : Int
  maxExec : Int
deriving DecidableEq, Repr

/-- Default timeout values from `CodeExecutionTool.__init__`. -/
def defaultTimeouts : Timeouts := ⟨30, 15, 5, 180⟩

/-- One bounded read of the session process as seen by the loop: the wall
clock value `time.time()` observed after the read, the accumulated buffer
`full_output` and the incremental delta `partial_output`. -/
structure PollRead where
  now : Int
  full : String
  delta : String
deriving DecidableEq, Repr

/-- The mutable loop variables of `get_terminal_output`. -/
structure LoopSt where
  lastOutputTime : Int
  truncated : String
  gotOutput : Bool
deriving DecidableEq, Repr

/-- Outcome of one loop iteration: return a response, or continue. -/
inductive StepOut where
  | ret (s : String)
  | cont (st : LoopSt)
deriving DecidableEq, Repr

/-- Response construction shared by the timeout branches: prepend the
accumulated output (when non-empty) to the notice. -/
def withNotice (truncated notice : String) : String :=
  if truncated ≠ "" then truncated ++ "\n\n" ++ notice else notice

/-- Modelled from the spec: the notice template files under `prompts/` are
not among the sources, so `read_prompt` is kept abstract as a parameter
`rp : filename → filled value → rendered text`; the spec says a notice is a
named template filled with the triggering timeout value, degrading to a
bracketed placeholder when the file is missing.  The max-duration notice. -/
def maxTimeNotice (rp : String → String → String) (t : Int) : String :=
  rp "fw.code.info.md" (rp "fw.code.max_time.md" (toString t))

/-- The no-first-output notice (see `maxTimeNotice` for the modelling). -/
def noOutNotice (rp : String → String → String) (t : Int) : String :=
  rp "fw.code.info.md" (rp "fw.code.no_out_time.md" (toString t))

/-- The stalled-output notice (see `maxTimeNotice` for the modelling). -/
def pauseNotice (rp : String → String → String) (t : Int) : String :=
  rp "fw.code.info.md" (rp "fw.code.pause_time.md" (toString t))

/-- The suspected-dialog notice (see `maxTimeNotice` for the modelling). -/
def dialogNotice (rp : String → String → String) (t : Int) : String :=
  rp "fw.code.info.md" (rp "fw.code.pause_dialog.md" (toString t))

/-- One iteration of the `while True` loop of `get_terminal_output`, after
the read returned `rd`.  In source order: on new output update the state and
check the prompt patterns; then the max-duration check; then, when no output
arrived yet, the first-output timeout; otherwise the stall timeout followed
by the dialog check. -/
def engineStep (rp : String → String → String) (tmo : Timeouts) (start : Int)
    (st : LoopSt) (rd : PollRead) : StepOut :=
  let stepSt : LoopSt :=
    if rd.delta ≠ "" then ⟨rd.now, fix_full_output rd.full, true⟩ else st
  if rd.delta ≠ "" && promptDetected (fix_full_output rd.full) then
    .ret stepSt.truncated
  else if tmo.maxExec < rd.now - start then
    .ret (withNotice stepSt.truncated (maxTimeNotice rp tmo.maxExec))
  else if !stepSt.gotOutput then
    if tmo.firstOutput < rd.now - start then .ret (noOutNotice rp tmo.firstOutput)
    else .cont stepSt
  else if tmo.betweenOutput < rd.now - stepSt.lastOutputTime then
    .ret (withNotice stepSt.truncated (pauseNotice rp tmo.betweenOutput))
  else if tmo.dialog < rd.now - stepSt.lastOutputTime
      && dialogDetected stepSt.truncated then
    .ret (withNotice stepSt.truncated (dialogNotice rp tmo.dialog))
  else
    .cont stepSt

/-- Running the loop over a trace of reads.  The Boolean is the
`reset_full_output` flag passed to the read of the current iteration; it is
set to `false` after the first read (`reset_full_output = False  # only
reset once`).  Returns the response (or `none` when the trace is exhausted
with the loop still running) and the list of reset flags passed to the reads
that were performed. -/
def engineRun (rp : String → String → String) (tmo : Timeouts) (start : Int) :
    Bool → LoopSt → List PollRead → Option String × List Bool
  | _, _, [] => (none, [])
  | rfo, st, rd :: rest =>
    match engineStep rp tmo start st rd with
    | .ret s => (some s, [rfo])
    | .cont st2 =>
      let r := engineRun rp tmo start false st2 rest
      (r.1, rfo :: r.2)

/-- Per-call timeout overrides of `get_terminal_output` (default `None`). -/
structure TimeoutOverrides where
  firstOutput : Option Int := none
  betweenOutput : Option Int := none
  dialog : Option Int := none
  maxExec : Option Int := none
deriving DecidableEq, Repr

/-- Python `override or default` for an integer override: `None` and `0`
are falsy and yield the default. -/
def orDefault (v : Option Int) (d : Int) : Int :=
  match v with
  | none => d
  | some x => if x = 0 then d else x

/-- The four `x = x or self.default` lines at the top of
`get_terminal_output`. -/
def resolveTimeouts (ov : TimeoutOverrides) (d : Timeouts) : Timeouts :=
  ⟨orDefault ov.firstOutput d.firstOutput,
   orDefault ov.betweenOutput d.betweenOutput,
   orDefault ov.dialog d.dialog,
   orDefault ov.maxExec d.maxExec⟩

/-- Embedding of `get_terminal_output`: resolve the timeouts, then run the
polling loop from the initial state (`last_output_time = start_time`, empty
output, `got_output = False`) with the given `reset_full_output` flag. -/
def get_terminal_output (rp : String → String → String) (dfl : Timeouts)
    (ov : TimeoutOverrides) (resetFullOutput : Bool) (start : Int)
    (trace : List PollRead) : Option String × List Bool :=
  engineRun rp (resolveTimeouts ov dfl) start resetFullOutput ⟨start, "", false⟩ trace

/-- The `get_output` tool of the top-level server (`src/main.py`): it calls
`get_terminal_output(session=session, reset_full_output=False)`. -/
def get_output_main (rp : String → String → String) (dfl : Timeouts)
    (start : Int) (trace : List PollRead) : Option String × List Bool :=
  get_terminal_output rp dfl {} false start trace

/-- The `get_output` tool of the packaged server
(`src/code_execution_mcp/main.py`): it calls
`get_terminal_output(session=session)`, leaving `reset_full_output` at its
default `True`. -/
def get_output_mcp (rp : String → String → String) (dfl : Timeouts)
    (start : Int) (trace : List PollRead) : Option String × List Bool :=
  get_terminal_output rp dfl {} true start trace

/-! ### The presentation-time cleaner `clean_string` of `helpers/shell_utils.py` -/

/-- Character class `[0-?]` of the ANSI CSI parameter bytes. -/
def isCsiParam (c : Char) : Bool := '0' ≤ c && c ≤ '?'

/-- Character class of the ANSI CSI intermediate bytes (space through the
slash character). -/
def isCsiInter (c : Char) : Bool := ' ' ≤ c && c ≤ '/'

/-- Character class `[@-~]` of the ANSI CSI final bytes. -/
def isCsiFinal (c : Char) : Bool := '@' ≤ c && c ≤ '~'

/-- Character class `[@-Z\\-_]` of the single-character escapes. -/
def isEscSingle (c : Char) : Bool := ('@' ≤ c && c ≤ 'Z') || ('\\' ≤ c && c ≤ '_')

/-- Tail of a complete CSI sequence body: after the bracket, consume the
parameter bytes, then the intermediate bytes, and require a final byte;
returns the remainder after the final byte, or `none` when the sequence is
incomplete (then the regex alternative fails and the escape is kept).  The
remainder carries a length bound for termination of the scan. -/
def csiTail (l : List Char) : Option { r : List Char // r.length ≤ l.length } :=
  match h2 : (l.dropWhile isCsiParam).dropWhile isCsiInter with
  | d :: r5 =>
    if isCsiFinal d then
      some ⟨r5, by
        have hd : (d :: r5).length ≤ l.length := by
          rw [← h2]
          calc ((l.dropWhile isCsiParam).dropWhile isCsiInter).length
              ≤ (l.dropWhile isCsiParam).length := (List.dropWhile_sublist _).length_le
            _ ≤ l.length := (List.dropWhile_sublist _).length_le
        simp only [List.length_cons] at hd
        omega⟩
    else none
  | [] => none

/-- Left-to-right scan of the substitution removing ANSI escapes (the regex
is an escape character followed by either one character of `isEscSingle` or
by a bracket, CSI parameter bytes, CSI intermediate bytes and a CSI final
byte): each match is removed; an escape starting no valid sequence is kept,
and scanning resumes at the next position.  The first argument is fuel;
every step consumes at least one character, so fuel equal to the length of
the word (as the wrapper `ansiStrip` passes) is never exhausted: when the
fuel hits zero the word is already empty and is returned unchanged. -/
def ansiStripF : Nat → List Char → List Char
  | 0, l => l
  | _ + 1, [] => []
  | fuel + 1, c :: rest =>
    if c = '\x1b' then
      match rest with
      | [] => ['\x1b']
      | d :: rest2 =>
        if d = '[' then
          match csiTail rest2 with
          | some r5 => ansiStripF fuel r5.1
          | none => '\x1b' :: ansiStripF fuel rest
        else if isEscSingle d then ansiStripF fuel rest2
        else '\x1b' :: ansiStripF fuel rest
    else c :: ansiStripF fuel rest

/-- The ANSI-escape removal on a whole word. -/
def ansiStrip (l : List Char) : List Char :=
  ansiStripF l.length l

/-- Python `cleaned.replace("\x00", "")`. -/
def removeNul (l : List Char) : List Char :=
  l.filter (· ≠ '\x00')

/-- The loop part of `re.sub(r'^[ \r]*(?:\r*\n>[ \r]*)*', '', cleaned)`:
repeatedly consume `\r* \n > [ \r]*`; an iteration whose `\r*` is not
followed by `\n>` fails, and the characters it consumed are not part of the
match, so the remainder before that iteration is returned.  Fueled; every
successful iteration consumes at least two characters, so fuel equal to the
length of the word is never exhausted, and at zero fuel the word (then
necessarily empty) is returned unchanged, as the failing iteration would. -/
def gtJunkTailF : Nat → List Char → List Char
  | 0, l => l
  | fuel + 1, l =>
    match l.dropWhile (· = '\r') with
    | '\n' :: '>' :: rest => gtJunkTailF fuel (rest.dropWhile isSpaceCR)
    | _ => l

/-- Embedding of `re.sub(r'^[ \r]*(?:\r*\n>[ \r]*)*', '', cleaned)`: the
leading `[ \r]*` is consumed greedily, then the group loop runs. -/
def stripIpyJunk (l : List Char) : List Char :=
  gtJunkTailF l.length (l.dropWhile isSpaceCR)

/-- Embedding of `re.sub(r'^(>\s*)+', '', cleaned)`: repeatedly consume a
`>` and following whitespace from the start; with no leading `>` the sub
removes nothing.  Fueled, like `gtJunkTailF`. -/
def stripLeadingGtF : Nat → List Char → List Char
  | 0, l => l
  | _ + 1, [] => []
  | fuel + 1, c :: rest =>
    if c = '>' then stripLeadingGtF fuel (rest.dropWhile isPySpace)
    else c :: rest

/-- The leading `>`-run removal on a whole word. -/
def stripLeadingGt (l : List Char) : List Char :=
  stripLeadingGtF l.length l

/-- Python `cleaned.replace("\r\n", "\n")`: left-to-right, non-overlapping. -/
def crlfToLf : List Char → List Char
  | [] => []
  | '\r' :: '\n' :: rest => '\n' :: crlfToLf rest
  | c :: rest => c :: crlfToLf rest

/-- The per-line carriage-return handling of `clean_string`: split the line
on `\r`, keep the parts that are non-blank after `strip()`, and replace the
line by the right-stripped last such part; a line with no non-blank part is
left unchanged. -/
def fixLine (line : List Char) : List Char :=
  let parts := (pySplitChar '\r' line).filter (fun p => !(p.all isPySpace))
  match parts.getLast? with
  | some p => pyRstrip p
  | none => line

/-- The line loop of `clean_string`: split on newline, apply the
carriage-return overwrite rule to each line, and join back. -/
def fixLines (v : List Char) : List Char :=
  joinLines ((pySplitChar '\n' v).map fixLine)

/-- Embedding of `clean_string` from `helpers/shell_utils.py`: remove ANSI
escapes, remove null bytes, strip leading ipython `\r\r\n>` junk and leading
`> ` runs, normalize CRLF, strip the leading `\r` and spaces, then process
each newline-separated segment with the carriage-return overwrite rule. -/
def clean_string (s : String) : String :=
  let l := ansiStrip s.data
  let l := removeNul l
  let l := stripIpyJunk l
  let l := stripLeadingGt l
  let l := crlfToLf l
  let l := l.dropWhile isSpaceCR
  String.mk (fixLines l)

/-! ### The session registry and dispatcher of `code_execution_tool.py`

Sessions map an integer key to an interactive shell; shells are named by
numeric handles issued by a counter.  The interactive process driver
(`helpers/shell_local.py`) is not in the sources; its operations appear as
entries of an explicit action log, and the outcome of a send or of the
output acquisition is injected by the environment (an `Attempt`). -/

/-- Side effects performed against the process driver and the session map,
in execution order. -/
inductive Act where
  | close (sid : Nat)
  | removeKey (key : Nat)
  | removeAll
  | connect (key sid : Nat)
  | send (sid : Nat) (cmd : String)
  | sleep
  | readOutput (sid : Nat) (resetFull : Bool)
  | readInit (sid : Nat)
  | acquire (key : Nat) (resetFull : Bool)
deriving DecidableEq, Repr

/-- The mutable state of `CodeExecutionTool` (top-level variant): the
`shells` dict mapping session key to the shell handle, the
`_python_sessions` set of keys with a Python REPL running, a counter for
fresh shell handles, and the action log. -/
structure ToolState where
  shells : List (Nat × Nat)
  pySessions : List Nat
  nextId : Nat
  acts : List Act
deriving DecidableEq, Repr

/-- Dict lookup `shells[k]`. -/
def lookupShell (k : Nat) (m : List (Nat × Nat)) : Option Nat :=
  (m.find? (fun p => p.1 = k)).map (·.2)

/-- Dict deletion `del shells[k]`. -/
def eraseShell (k : Nat) (m : List (Nat × Nat)) : List (Nat × Nat) :=
  m.filter (fun p => p.1 ≠ k)

/-- Actions of the init-command loop of `prepare_state`: each configured
command is sent and followed by a bounded read (`read_output(timeout=2)`). -/
def initActs (sid : Nat) (cmds : List String) : List Act :=
  cmds.flatMap (fun c => [.send sid c, .readInit sid])

/-- The reset block of `prepare_state`: with `reset` and a session, close
and delete that session only; with `reset` and no session, close every
shell and empty the map. -/
def resetPhase (st : ToolState) (reset : Bool) (session : Option Nat) : ToolState :=
  match reset, session with
  | true, some k =>
    (match lookupShell k st.shells with
     | some sid =>
       { st with shells := eraseShell k st.shells,
                 acts := st.acts ++ [.close sid, .removeKey k] }
     | none => st)
  | true, none =>
    { st with shells := [],
              acts := st.acts ++ st.shells.map (fun p => Act.close p.2) ++ [.removeAll] }
  | false, _ => st

/-- The initialization block of `prepare_state`: when a session is given
and absent from the map, connect a fresh shell for it and run the init
commands. -/
def ensurePhase (st : ToolState) (session : Option Nat) (initCmds : List String) :
    ToolState :=
  match session with
  | some k =>
    (match lookupShell k st.shells with
     | none =>
       { st with shells := st.shells ++ [(k, st.nextId)], nextId := st.nextId + 1,
                 acts := st.acts ++ [.connect k st.nextId] ++ initActs st.nextId initCmds }
     | some _ => st)
  | none => st

/-- Embedding of `CodeExecutionTool.prepare_state`: the reset block then the
initialization block. -/
def prepare_state (st : ToolState) (reset : Bool) (session : Option Nat)
    (initCmds : List String) : ToolState :=
  ensurePhase (resetPhase st reset session) session initCmds

/-- Environment-injected outcome of one try of sending a command and
acquiring its output: `sendErr` is the error raised by `send_command` (if
any), and `acquire` is the result (or raised error) of
`get_terminal_output`. -/
structure Attempt where
  sendErr : Option String
  acquire : Except String String
deriving Repr

instance : DecidableEq (Except String String) := fun a b =>
  match a, b with
  | .ok x, .ok y => if h : x = y then .isTrue (by rw [h]) else .isFalse (by simp [h])
  | .ok _, .error _ => .isFalse (by simp)
  | .error _, .ok _ => .isFalse (by simp)
  | .error x, .error y => if h : x = y then .isTrue (by rw [h]) else .isFalse (by simp [h])

instance : DecidableEq Attempt := fun a b =>
  match a, b with
  | ⟨s1, q1⟩, ⟨s2, q2⟩ =>
    if h : s1 = s2 ∧ q1 = q2 then .isTrue (by rw [h.1, h.2])
    else .isFalse (by intro hc; cases hc; exact h ⟨rfl, rfl⟩)

/-- Actions performed by one try of `terminal_session`: the send, then (when
the send did not raise) the output acquisition, which is called with the
default `reset_full_output=True`. -/
def attemptActs (sid k : Nat) (cmd : String) (a : Attempt) : List Act :=
  match a.sendErr with
  | some _ => [.send sid cmd]
  | none => [.send sid cmd, .acquire k true]

/-- Actions performed by the code send of `execute_python_code`, whose
acquisition is called with `reset_full_output=False`. -/
def pyAttemptActs (sid k : Nat) (cmd : String) (a : Attempt) : List Act :=
  match a.sendErr with
  | some _ => [.send sid cmd]
  | none => [.send sid cmd, .acquire k false]

/-- Result of one try: the send error when the send raised, else the
acquisition result. -/
def attemptResult (a : Attempt) : Except String String :=
  match a.sendErr with
  | some e => .error e
  | none => a.acquire

/-- Whether a try raises (a transport failure of the send or of the read). -/
def attemptFails (a : Attempt) : Bool :=
  a.sendErr.isSome ||
  (match a.acquire with
   | .error _ => true
   | .ok _ => false)

/-- One try of the body of the retry loop of `terminal_session`. -/
def runAttempt (st : ToolState) (k : Nat) (cmd : String) (a : Attempt) :
    ToolState × Except String String :=
  let sid := (lookupShell k st.shells).getD 0
  ({ st with acts := st.acts ++ attemptActs sid k cmd a }, attemptResult a)

/-- Embedding of `CodeExecutionTool.terminal_session` (both variants have
the same structure): prepare the session, then try at most twice; after a
first failure force `prepare_state(reset=True, session=k)` (close, delete
and recreate the session) and retry once; a second failure is re-raised. -/
def terminal_session (st : ToolState) (k : Nat) (cmd : String) (reset : Bool)
    (a0 a1 : Attempt) (initCmds : List String) : ToolState × Except String String :=
  let st := prepare_state st reset (some k) initCmds
  let r0 := runAttempt st k cmd a0
  match r0.2 with
  | .ok out => (r0.1, .ok out)
  | .error _ =>
    let st2 := prepare_state r0.1 true (some k) initCmds
    runAttempt st2 k cmd a1

/-- Embedding of `CodeExecutionTool.execute_python_code` (top-level
variant): prepare the session; when no Python REPL is recorded for the key,
send `python3 -i`, wait, clear the startup output with a resetting read and
record the key; then send the code and acquire the output without resetting
the accumulated buffer.  No part of it is wrapped in a retry. -/
def execute_python_code (st : ToolState) (k : Nat) (code : String)
    (reset : Bool) (a : Attempt) (initCmds : List String) :
    ToolState × Except String String :=
  let st := prepare_state st reset (some k) initCmds
  let st :=
    if st.pySessions.contains k then st
    else
      let sid := (lookupShell k st.shells).getD 0
      { st with acts := st.acts ++ [.send sid "python3 -i", .sleep, .readOutput sid true],
                pySessions := st.pySessions ++ [k] }
  let sid := (lookupShell k st.shells).getD 0
  ({ st with acts := st.acts ++ pyAttemptActs sid k code a }, attemptResult a)

/-- Embedding of `CodeExecutionTool.execute_terminal_command` (top-level
variant): prepare the session; when the key is in Python mode, send
`exit()`, wait, clear the output and discard the mode tag; then dispatch the
command through `terminal_session`. -/
def execute_terminal_command (st : ToolState) (k : Nat) (cmd : String)
    (reset : Bool) (a0 a1 : Attempt) (initCmds : List String) :
    ToolState × Except String String :=
  let st := prepare_state st reset (some k) initCmds
  let st :=
    if st.pySessions.contains k then
      let sid := (lookupShell k st.shells).getD 0
      { st with acts := st.acts ++ [.send sid "exit()", .sleep, .readOutput sid true],
                pySessions := st.pySessions.erase k }
    else st
  terminal_session st k cmd reset a0 a1 initCmds

/-- Embedding of `CodeExecutionTool.reset_terminal` (top-level variant):
discard the Python mode tag of the key, then reset only that session via
`prepare_state(reset=True, session=k)` (which also recreates it). -/
def reset_terminal (st : ToolState) (k : Nat) (initCmds : List String) : ToolState :=
  let st := { st with pySessions := st.pySessions.erase k }
  prepare_state st true (some k) initCmds

/-! ### The packaged variant of `execute_python_code` -/

/-- Characters `shlex.quote` considers safe: ASCII word characters and the
punctuation at-sign, percent, plus, equals, colon, comma, dot, slash,
hyphen. -/
def shlexSafeChar (c : Char) : Bool :=
  c.isAlpha || c.isDigit || c = '_' || c = '@' || c = '%' || c = '+' ||
  c = '=' || c = ':' || c = ',' || c = '.' || c = '/' || c = '-'

/-- The single-quote character. -/
def squoteChar : Char := Char.ofNat 39

/-- Embedding of `shlex.quote`: return the string unchanged when non-empty
and wholly safe, else wrap it in single quotes, escaping embedded single
quotes as quote, double-quote, quote, double-quote, quote. -/
def shlex_quote (s : String) : String :=
  if s = "" then String.mk [squoteChar, squoteChar]
  else if s.data.all shlexSafeChar then s
  else
    String.mk ([squoteChar] ++
      (s.data.flatMap fun c =>
        if c = squoteChar then [squoteChar, '"', squoteChar, '"', squoteChar] else [c]) ++
      [squoteChar])

/-- The shell command built by the packaged `execute_python_code`
(`f"{sys.executable} -m IPython -c {escaped_code}"`); `sys.executable` is a
runtime value and appears as the parameter `pyExe`. -/
def execute_python_code_mcp_command (pyExe code : String) : String :=
  pyExe ++ " -m IPython -c " ++ shlex_quote code

/-- Embedding of the packaged `execute_python_code`
(`src/code_execution_mcp/code_execution_tool.py`): build a fresh IPython
invocation for the code and dispatch it through `terminal_session` like any
shell command. -/
def execute_python_code_mcp (st : ToolState) (k : Nat) (pyExe code : String)
    (reset : Bool) (a0 a1 : Attempt) (initCmds : List String) :
    ToolState × Except String String :=
  terminal_session st k (execute_python_code_mcp_command pyExe code) reset a0 a1 initCmds

/-- Concrete template environment used in concrete evaluations: every
template file renders as its bracketed name, the shape `read_prompt` falls
back to when a template file is missing. -/
def bracketTemplates : String → String → String :=
  fun f _ => "[" ++ f ++ "]"

end CodeExec

namespace CodeExec

/-! ### Shared lemmas about the session map and the loop -/

/-- Dict lookup distributed over the head binding. -/
theorem lookupShell_cons (j : Nat) (p : Nat × Nat) (m : List (Nat × Nat)) :
    lookupShell j (p :: m) = if p.1 = j then some p.2 else lookupShell j m := by
  by_cases h : p.1 = j
  · rw [if_pos h]
    simp only [lookupShell]
    rw [List.find?_cons_of_pos _ (by simp [h])]
    rfl
  · rw [if_neg h]
    simp only [lookupShell]
    rw [List.find?_cons_of_neg _ (by simp [h])]

/-- Dict deletion distributed over the head binding. -/
theorem eraseShell_cons (k : Nat) (p : Nat × Nat) (m : List (Nat × Nat)) :
    eraseShell k (p :: m) = if p.1 = k then eraseShell k m else p :: eraseShell k m := by
  by_cases h : p.1 = k <;> simp [eraseShell, h]

/-- Dict lookup of an erased key fails. -/
theorem lookupShell_erase_self (k : Nat) (m : List (Nat × Nat)) :
    lookupShell k (eraseShell k m) = none := by
  induction m with
  | nil => rfl
  | cons p rest ih =>
    rw [eraseShell_cons]
    by_cases h : p.1 = k
    · rw [if_pos h]; exact ih
    · rw [if_neg h, lookupShell_cons, if_neg fun hc => h (hc.trans rfl)]; exact ih

/-- Dict lookup in the erased map then one appended binding for the key. -/
theorem lookupShell_erase_append (k v : Nat) (m : List (Nat × Nat)) :
    lookupShell k (eraseShell k m ++ [(k, v)]) = some v := by
  induction m with
  | nil => simp [eraseShell, lookupShell]
  | cons p rest ih =>
    rw [eraseShell_cons]
    by_cases h : p.1 = k
    · rw [if_pos h]; exact ih
    · rw [if_neg h, List.cons_append, lookupShell_cons, if_neg h]; exact ih

/-- Dict lookup of a different key is unchanged by erase plus re-insert. -/
theorem lookupShell_erase_append_ne (j k v : Nat) (m : List (Nat × Nat))
    (h : j ≠ k) :
    lookupShell j (eraseShell k m ++ [(k, v)]) = lookupShell j m := by
  induction m with
  | nil =>
    show lookupShell j [(k, v)] = lookupShell j []
    rw [lookupShell_cons, if_neg fun hc => h hc.symm]
  | cons p rest ih =>
    rw [eraseShell_cons]
    by_cases hp : p.1 = k
    · rw [if_pos hp, ih, lookupShell_cons,
        if_neg (by rw [hp]; exact fun hc => h hc.symm)]
    · rw [if_neg hp, List.cons_append, lookupShell_cons, lookupShell_cons, ih]

/-- A read flag list started with the flag off stays entirely off. -/
theorem engineRun_flags_off (rp : String → String → String) (tmo : Timeouts)
    (start : Int) (st : LoopSt) (trace : List PollRead) :
    ((engineRun rp tmo start false st trace).2).all (fun b => !b) = true := by
  induction trace generalizing st with
  | nil => rfl
  | cons rd rest ih =>
    simp only [engineRun]
    cases engineStep rp tmo start st rd with
    | ret s => rfl
    | cont st2 => simpa using ih st2

/-- A failing attempt produces an error result. -/
theorem attemptFails_error (a : Attempt) (h : attemptFails a = true) :
    ∃ e, attemptResult a = .error e := by
  unfold attemptFails at h
  unfold attemptResult
  cases hs : a.sendErr with
  | some e => exact ⟨e, rfl⟩
  | none =>
    cases hq : a.acquire with
    | error e => exact ⟨e, rfl⟩
    | ok v => simp [hs, hq] at h

/-! ### C10: zero or missing per-call timeout overrides fall back to the defaults -/

/-- Claim C10: a per-call timeout override equal to `0` (or `None`, the
default) is ignored: each of the four effective timeouts resolves to the
process-wide default, so the run of `get_terminal_output` with all
overrides `0` coincides with the run with no overrides, and both resolve to
the configured defaults. -/
theorem c10_zero_overrides (rp : String → String → String) (dfl : Timeouts)
    (rfo : Bool) (start : Int) (trace : List PollRead) :
    get_terminal_output rp dfl ⟨some 0, some 0, some 0, some 0⟩ rfo start trace
      = get_terminal_output rp dfl {} rfo start trace
    ∧ resolveTimeouts ⟨some 0, some 0, some 0, some 0⟩ dfl = dfl
    ∧ resolveTimeouts {} dfl = dfl := by
  refine ⟨?_, ?_, ?_⟩ <;> simp [get_terminal_output, resolveTimeouts, orDefault]

/-! ### C9: the poll tool and the accumulator-reset flag -/

/-- Counterexample to claim C9: the `get_output` tool of the packaged
server leaves `reset_full_output` at its default, so its first read is
issued with the accumulator-reset flag ON, clearing the accumulated
buffer. -/
theorem c9_counterexample :
    (get_output_mcp bracketTemplates defaultTimeouts 0 [⟨1, "", ""⟩]).2 = [true] := by
  rfl

/-- Claim C9 (amended): the `get_output` tool of the top-level server
(`src/main.py`) issues every underlying read with the accumulator-reset
flag off, so the accumulated output survives the poll; the packaged
server's `get_output` instead leaves the flag at its default on value for
the first read. -/
theorem c9_poll_nondestructive (rp : String → String → String) (dfl : Timeouts)
    (start : Int) (trace : List PollRead) :
    ((get_output_main rp dfl start trace).2).all (fun b => !b) = true := by
  exact engineRun_flags_off rp (resolveTimeouts {} dfl) start ⟨start, "", false⟩ trace

/-! ### C1: the max-duration check -/

/-- Counterexample to claim C1: with `max_exec_timeout = 10`, a poll at
elapsed time exactly 10 does not stop the loop (the source compares
strictly), and a poll past the limit whose new output ends in a shell
prompt returns the output alone, not text ending in the max-duration
notice. -/
theorem c1_counterexample :
    (engineRun bracketTemplates ⟨30, 15, 5, 10⟩ 0 true ⟨0, "", false⟩ [⟨10, "", ""⟩]).1 = none
    ∧ (engineRun bracketTemplates ⟨30, 15, 5, 10⟩ 0 true ⟨0, "", false⟩
        [⟨11, "user@host:~$ \n", "p"⟩]).1 = some "user@host:~$"
    ∧ some "user@host:~$"
        ≠ some (withNotice "user@host:~$" (maxTimeNotice bracketTemplates 10)) := by
  refine ⟨rfl, rfl, ?_⟩
  decide

/-- Claim C1 (amended): whenever elapsed time strictly exceeds
`max_exec_timeout` at a poll iteration and that iteration's new output (if
any) does not match a shell prompt, the loop stops in that same iteration
regardless of the remaining trace, and the returned text is the accumulated
output (possibly empty) concatenated with the max-duration notice. -/
theorem c1_max_exec (rp : String → String → String) (tmo : Timeouts)
    (start : Int) (rfo : Bool) (st : LoopSt) (rd : PollRead)
    (rest : List PollRead)
    (h1 : tmo.maxExec < rd.now - start)
    (h2 : rd.delta = "" ∨ promptDetected (fix_full_output rd.full) = false) :
    (engineRun rp tmo start rfo st (rd :: rest)).1
      = some (withNotice
          (if rd.delta = "" then st.truncated else fix_full_output rd.full)
          (maxTimeNotice rp tmo.maxExec)) := by
  by_cases hd : rd.delta = ""
  · have hstep : engineStep rp tmo start st rd
        = .ret (withNotice st.truncated (maxTimeNotice rp tmo.maxExec)) := by
      simp [engineStep, hd, h1]
    simp [engineRun, hstep, hd]
  · have hp : promptDetected (fix_full_output rd.full) = false := by
      rcases h2 with h2 | h2
      · exact absurd h2 hd
      · exact h2
    have hstep : engineStep rp tmo start st rd
        = .ret (withNotice (fix_full_output rd.full) (maxTimeNotice rp tmo.maxExec)) := by
      simp [engineStep, hd, hp, h1]
    simp [engineRun, hstep, hd]

/-- Witness for `c1_max_exec` at a concrete input: elapsed 11 past a limit
of 10 with an empty read stops with the max-duration notice. -/
theorem c1_witness :
    ((10 : Int) < 11 - 0)
    ∧ (engineRun bracketTemplates ⟨30, 15, 5, 10⟩ 0 true ⟨0, "", false⟩
        [⟨11, "", ""⟩]).1 = some "[fw.code.info.md]" := by
  refine ⟨by decide, ?_⟩
  have h := c1_max_exec bracketTemplates ⟨30, 15, 5, 10⟩ 0 true ⟨0, "", false⟩
    ⟨11, "", ""⟩ [] (by decide) (Or.inl rfl)
  rw [h]
  rfl

/-! ### C2: the shell-prompt check on new output -/

/-- Counterexample to claim C2: sanitized output whose prompt line is
followed by three blank lines; the last up-to-3 NON-EMPTY lines (the
claim's reading) match a prompt, but the code inspects the last 3 lines
verbatim (`splitlines()[-3:]`), which are all blank, so the iteration
continues instead of returning immediately. -/
theorem c2_counterexample :
    promptDetectedSpec (fix_full_output "user@host:~$ \n\n\n\n\n") = true
    ∧ engineStep bracketTemplates defaultTimeouts 0 ⟨0, "", false⟩
        ⟨1, "user@host:~$ \n\n\n\n\n", "x"⟩
      = .cont ⟨1, "user@host:~$\n\n\n\n", true⟩ := by
  exact ⟨rfl, rfl⟩

/-- Claim C2 (amended): when a poll reads non-empty incremental output and
any of the last up-to-3 lines (empty lines included) of the sanitized
accumulated output matches a shell-prompt pattern, the call returns
immediately with the accumulated output alone, regardless of the remaining
trace and without any notice. -/
theorem c2_prompt_return (rp : String → String → String) (tmo : Timeouts)
    (start : Int) (rfo : Bool) (st : LoopSt) (rd : PollRead)
    (rest : List PollRead)
    (h1 : rd.delta ≠ "")
    (h2 : promptDetected (fix_full_output rd.full) = true) :
    (engineRun rp tmo start rfo st (rd :: rest)).1
      = some (fix_full_output rd.full) := by
  have hstep : engineStep rp tmo start st rd = .ret (fix_full_output rd.full) := by
    simp [engineStep, h1, h2]
  simp [engineRun, hstep]

/-- Witness for `c2_prompt_return`: output ending in the literal line
`user@host:~$ ` returns immediately with the output. -/
theorem c2_witness :
    (("user@host:~$ " : String) ≠ "")
    ∧ promptDetected (fix_full_output "user@host:~$ ") = true
    ∧ (engineRun bracketTemplates defaultTimeouts 0 true ⟨0, "", false⟩
        [⟨1, "user@host:~$ ", "user@host:~$ "⟩]).1 = some "user@host:~$" := by
  refine ⟨by decide, by decide, ?_⟩
  have h := c2_prompt_return bracketTemplates defaultTimeouts 0 true ⟨0, "", false⟩
    ⟨1, "user@host:~$ ", "user@host:~$ "⟩ [] (by decide) (by decide)
  rw [h]
  rfl

/-! ### C3: the dialog check on stalled output -/

/-- Counterexample to claim C3: at `now - lastOutputTime` exactly equal to
`dialog_timeout` the loop continues (the source compares strictly), and a
dialog line followed by two blank lines is missed because the code inspects
the last 2 lines verbatim (`splitlines()[-2:]`), not the last up-to-2
non-empty lines. -/
theorem c3_counterexample :
    engineStep bracketTemplates defaultTimeouts 0 ⟨0, "Continue? (Y/N)", true⟩ ⟨5, "", ""⟩
      = .cont ⟨0, "Continue? (Y/N)", true⟩
    ∧ dialogDetectedSpec "Continue? (Y/N)\n\n\n" = true
    ∧ engineStep bracketTemplates defaultTimeouts 0 ⟨0, "Continue? (Y/N)\n\n\n", true⟩ ⟨6, "", ""⟩
      = .cont ⟨0, "Continue? (Y/N)\n\n\n", true⟩ := by
  exact ⟨rfl, rfl, rfl⟩

/-- Claim C3 (amended): on a stalled iteration (no new output) after output
has arrived, when the max-duration and stall timeouts have not fired and
`now - lastOutputTime` strictly exceeds `dialog_timeout`, a dialog marker in
the last up-to-2 lines (empty lines included) of the accumulated output
returns the output plus the dialog-suspected notice, pre-empting the longer
stall timeout. -/
theorem c3_dialog (rp : String → String → String) (tmo : Timeouts)
    (start : Int) (rfo : Bool) (st : LoopSt) (rd : PollRead)
    (rest : List PollRead)
    (h0 : rd.delta = "")
    (h1 : st.gotOutput = true)
    (h2 : rd.now - start ≤ tmo.maxExec)
    (h3 : rd.now - st.lastOutputTime ≤ tmo.betweenOutput)
    (h4 : tmo.dialog < rd.now - st.lastOutputTime)
    (h5 : dialogDetected st.truncated = true) :
    (engineRun rp tmo start rfo st (rd :: rest)).1
      = some (withNotice st.truncated (dialogNotice rp tmo.dialog)) := by
  have hstep : engineStep rp tmo start st rd
      = .ret (withNotice st.truncated (dialogNotice rp tmo.dialog)) := by
    simp [engineStep, h0, h1, h5, h4, not_lt.mpr h2, not_lt.mpr h3]
  simp [engineRun, hstep]

/-- Witness for `c3_dialog` at the claim's own example: stall timeout 15,
dialog timeout 5, output ending in `Continue? (Y/N)`, no further output;
the dialog notice is returned at elapsed 6, not at the stall timeout. -/
theorem c3_witness :
    (5 : Int) < 6 - 0
    ∧ dialogDetected "Continue? (Y/N)" = true
    ∧ (engineRun bracketTemplates ⟨30, 15, 5, 180⟩ 0 true ⟨0, "Continue? (Y/N)", true⟩
        [⟨6, "", ""⟩]).1
      = some ("Continue? (Y/N)" ++ "\n\n" ++ "[fw.code.info.md]") := by
  refine ⟨by decide, by decide, ?_⟩
  have h := c3_dialog bracketTemplates ⟨30, 15, 5, 180⟩ 0 true
    ⟨0, "Continue? (Y/N)", true⟩ ⟨6, "", ""⟩ []
    rfl rfl (by decide) (by decide) (by decide) (by decide)
  rw [h]
  rfl

/-! ### C4: the retry policy of the dispatcher -/

/-- Counterexample to claim C4: the top-level `execute_python_code` sends
the code outside any retry; a transport failure of that send propagates at
once, with no reset, no recreation and no resend of the command. -/
theorem c4_counterexample :
    execute_python_code ⟨[(1, 10)], [1], 11, []⟩ 1 "x = 1" false
        ⟨some "ConnectionLost", .ok ""⟩ []
      = (⟨[(1, 10)], [1], 11, [.send 10 "x = 1"]⟩, .error "ConnectionLost") := by
  rfl

/-- Claim C4 (amended): for commands dispatched through
`terminal_session` (shell commands in both variants, and REPL code in the
packaged variant), a first transport failure triggers exactly one recovery:
the session key is fully reset (close, delete), recreated (connect plus
init commands) and the original command is resent once; the outcome of the
second attempt is final, an error there propagating to the caller.  The
top-level `execute_python_code` is outside this mechanism. -/
theorem c4_retry (st : ToolState) (k : Nat) (cmd : String) (a0 a1 : Attempt)
    (init : List String) (sid : Nat)
    (hk : lookupShell k st.shells = some sid)
    (hf : attemptFails a0 = true) :
    terminal_session st k cmd false a0 a1 init
      = ({ st with
            shells := eraseShell k st.shells ++ [(k, st.nextId)],
            nextId := st.nextId + 1,
            acts := st.acts ++ attemptActs sid k cmd a0
              ++ [.close sid, .removeKey k, .connect k st.nextId]
              ++ initActs st.nextId init
              ++ attemptActs st.nextId k cmd a1 },
         attemptResult a1) := by
  obtain ⟨e, he⟩ := attemptFails_error a0 hf
  simp only [terminal_session, prepare_state, resetPhase, ensurePhase, runAttempt, hk, he,
    lookupShell_erase_self, lookupShell_erase_append, Option.getD_some]
  simp [hk, List.append_assoc]

/-- Witness for `c4_retry`: a failing first send on session 1 is followed
by a close of its shell, a recreation and one resend, whose success is
returned. -/
theorem c4_witness :
    lookupShell 1 ([(1, 10)] : List (Nat × Nat)) = some 10
    ∧ attemptFails ⟨some "conn", .ok ""⟩ = true
    ∧ terminal_session ⟨[(1, 10)], [], 20, []⟩ 1 "ls" false
        ⟨some "conn", .ok ""⟩ ⟨none, .ok "done"⟩ []
      = (⟨[(1, 20)], [], 21,
          [.send 10 "ls", .close 10, .removeKey 1, .connect 1 20,
           .send 20 "ls", .acquire 1 true]⟩, .ok "done") := by
  refine ⟨rfl, rfl, ?_⟩
  have h := c4_retry ⟨[(1, 10)], [], 20, []⟩ 1 "ls"
    ⟨some "conn", .ok ""⟩ ⟨none, .ok "done"⟩ [] 10 rfl rfl
  rw [h]
  rfl

/-! ### C5: REPL persistence across `run_code` calls -/

/-- Counterexample to claim C5: in the packaged variant, a second
`run_code` on the same session does not send the code to a still-running
REPL; it sends a freshly built IPython interpreter invocation, starting a
new process, so no REPL state persists between the two calls. -/
theorem c5_counterexample :
    (execute_python_code_mcp
        (execute_python_code_mcp ⟨[], [], 0, []⟩ 1 "python3" "x = 1" false
          ⟨none, .ok "ok"⟩ ⟨none, .ok "ok"⟩ []).1
        1 "python3" "x + 1" false ⟨none, .ok "ok"⟩ ⟨none, .ok "ok"⟩ []).1.acts
      = [.connect 1 0,
         .send 0 (execute_python_code_mcp_command "python3" "x = 1"), .acquire 1 true,
         .send 0 (execute_python_code_mcp_command "python3" "x + 1"), .acquire 1 true]
    ∧ execute_python_code_mcp_command "python3" "x + 1" ≠ "x + 1" := by
  exact ⟨rfl, by decide⟩

/-- Claim C5 (amended): in the top-level variant, Python REPL state
persists per session: the first `run_code` on a session with no REPL
recorded starts exactly one REPL (`python3 -i`) and tags the key; every
further `run_code` on a tagged session sends the code itself to that same
still-running shell process, starting no new REPL.  The packaged variant
instead runs each snippet in a fresh IPython process. -/
theorem c5_repl_persistence :
    (∀ (st : ToolState) (k : Nat) (code : String) (a : Attempt)
        (init : List String) (sid : Nat),
       lookupShell k st.shells = some sid →
       st.pySessions.contains k = false →
       execute_python_code st k code false a init
         = ({ st with
               pySessions := st.pySessions ++ [k],
               acts := st.acts ++ [.send sid "python3 -i", .sleep, .readOutput sid true]
                 ++ pyAttemptActs sid k code a },
            attemptResult a))
    ∧ (∀ (st : ToolState) (k : Nat) (code : String) (a : Attempt)
        (init : List String) (sid : Nat),
       lookupShell k st.shells = some sid →
       st.pySessions.contains k = true →
       execute_python_code st k code false a init
         = ({ st with acts := st.acts ++ pyAttemptActs sid k code a },
            attemptResult a)) := by
  constructor
  · intro st k code a init sid hk hpy
    simp only [execute_python_code, prepare_state, resetPhase, ensurePhase, hk, hpy,
      Option.getD_some]
    simp [hk, List.append_assoc]
  · intro st k code a init sid hk hpy
    simp only [execute_python_code, prepare_state, resetPhase, ensurePhase, hk, hpy,
      Option.getD_some]
    simp [hk]

/-- Witness for `c5_repl_persistence`: two consecutive `run_code` calls on
session 1; the first starts `python3 -i` on shell 10, the second sends only
the code to the same shell 10. -/
theorem c5_witness :
    lookupShell 1 ([(1, 10)] : List (Nat × Nat)) = some 10
    ∧ ([] : List Nat).contains 1 = false
    ∧ execute_python_code ⟨[(1, 10)], [], 11, []⟩ 1 "x = 1" false ⟨none, .ok "ok"⟩ []
      = (⟨[(1, 10)], [1], 11,
          [.send 10 "python3 -i", .sleep, .readOutput 10 true,
           .send 10 "x = 1", .acquire 1 false]⟩, .ok "ok")
    ∧ execute_python_code ⟨[(1, 10)], [1], 11, []⟩ 1 "x + 1" false ⟨none, .ok "2"⟩ []
      = (⟨[(1, 10)], [1], 11, [.send 10 "x + 1", .acquire 1 false]⟩, .ok "2") := by
  refine ⟨rfl, rfl, ?_, ?_⟩
  · have h := c5_repl_persistence.1 ⟨[(1, 10)], [], 11, []⟩ 1 "x = 1"
      ⟨none, .ok "ok"⟩ [] 10 rfl rfl
    rw [h]
    rfl
  · have h := c5_repl_persistence.2 ⟨[(1, 10)], [1], 11, []⟩ 1 "x + 1"
      ⟨none, .ok "2"⟩ [] 10 rfl rfl
    rw [h]
    rfl

/-! ### C6: the frame property of reset -/

/-- Claim C6: resetting session `k` closes exactly the shell of `k` and then
removes the key (the close action precedes the removal, so no handle
leaks), leaving the binding of every other key present and untouched; the
reset path also recreates `k` afterwards, which the action log shows.
Resetting with no key closes every shell and empties the map. -/
theorem c6_reset_frame :
    (∀ (st : ToolState) (k sid : Nat) (init : List String),
       lookupShell k st.shells = some sid →
       (prepare_state st true (some k) init).acts
         = st.acts ++ [.close sid, .removeKey k, .connect k st.nextId]
             ++ initActs st.nextId init
       ∧ ∀ j, j ≠ k →
           lookupShell j (prepare_state st true (some k) init).shells
             = lookupShell j st.shells)
    ∧ (∀ (st : ToolState) (init : List String),
       (prepare_state st true none init).shells = []
       ∧ (prepare_state st true none init).acts
           = st.acts ++ st.shells.map (fun p => Act.close p.2) ++ [.removeAll]) := by
  constructor
  · intro st k sid init hk
    constructor
    · simp only [prepare_state, resetPhase, ensurePhase, hk, lookupShell_erase_self]
      simp
    · intro j hj
      simp only [prepare_state, resetPhase, ensurePhase, hk, lookupShell_erase_self]
      exact lookupShell_erase_append_ne j k st.nextId st.shells hj
  · intro st init
    refine ⟨rfl, ?_⟩
    simp only [prepare_state, resetPhase, ensurePhase]

/-- Witness for `c6_reset_frame`: resetting session 1 of a two-session map
closes shell 10 before removing key 1, recreates 1 on a fresh shell, and
leaves session 2 bound to shell 20. -/
theorem c6_witness :
    lookupShell 1 ([(1, 10), (2, 20)] : List (Nat × Nat)) = some 10
    ∧ (prepare_state ⟨[(1, 10), (2, 20)], [], 30, []⟩ true (some 1) []).acts
      = [.close 10, .removeKey 1, .connect 1 30]
    ∧ lookupShell 2 (prepare_state ⟨[(1, 10), (2, 20)], [], 30, []⟩ true (some 1) []).shells
      = some 20
    ∧ (prepare_state ⟨[(1, 10), (2, 20)], [], 30, []⟩ true none []).shells = [] := by
  have h := c6_reset_frame.1 ⟨[(1, 10), (2, 20)], [], 30, []⟩ 1 10 [] rfl
  have h2 := c6_reset_frame.2 ⟨[(1, 10), (2, 20)], [], 30, []⟩ []
  refine ⟨rfl, ?_, ?_, h2.1⟩
  · rw [h.1]; rfl
  · rw [h.2 2 (by decide)]; rfl

/-! ### C7: resets and the mode tag -/

/-- Counterexample to claim C7: the retry-triggered recreation inside
`terminal_session` fully resets and recreates session 1 (the close and
connect appear in the log) but leaves the Python mode tag of the key in
place, so that reset path does not restore Shell mode. -/
theorem c7_counterexample :
    (terminal_session ⟨[(1, 10)], [1], 11, []⟩ 1 "ls" false
        ⟨some "conn", .ok ""⟩ ⟨none, .ok "done"⟩ []).1.pySessions = [1]
    ∧ (terminal_session ⟨[(1, 10)], [1], 11, []⟩ 1 "ls" false
        ⟨some "conn", .ok ""⟩ ⟨none, .ok "done"⟩ []).1.acts
      = [.send 10 "ls", .close 10, .removeKey 1, .connect 1 11,
         .send 11 "ls", .acquire 1 true] := by
  exact ⟨rfl, rfl⟩

/-- Claim C7 (amended): only the explicit `reset_terminal` clears the
affected key's mode tag; `prepare_state` (hence both the reset-all path and
the retry-triggered recreation, which go through it alone) never touches
the set of Python-mode keys. -/
theorem c7_mode_tag :
    (∀ (st : ToolState) (k : Nat) (init : List String),
       (reset_terminal st k init).pySessions = st.pySessions.erase k)
    ∧ (∀ (st : ToolState) (r : Bool) (s : Option Nat) (init : List String),
       (prepare_state st r s init).pySessions = st.pySessions) := by
  have hens : ∀ (st : ToolState) (s : Option Nat) (init : List String),
      (ensurePhase st s init).pySessions = st.pySessions := by
    intro st s init
    unfold ensurePhase
    split
    all_goals first | rfl | (split <;> rfl)
  have hres : ∀ (st : ToolState) (r : Bool) (s : Option Nat),
      (resetPhase st r s).pySessions = st.pySessions := by
    intro st r s
    unfold resetPhase
    split
    all_goals first | rfl | (split <;> rfl)
  have hp : ∀ (st : ToolState) (r : Bool) (s : Option Nat) (init : List String),
      (prepare_state st r s init).pySessions = st.pySessions := by
    intro st r s init
    unfold prepare_state
    rw [hens, hres]
  refine ⟨?_, hp⟩
  intro st k init
  unfold reset_terminal
  rw [hp]

/-! ### C8: helper lemmas towards the idempotence analysis of `clean_string` -/

/-- A dropWhile whose head fails the predicate drops nothing. -/
theorem dropWhile_eq_self_of_head (p : Char → Bool) (l : List Char)
    (h : ∀ c, l.head? = some c → p c = false) : l.dropWhile p = l := by
  cases l with
  | nil => rfl
  | cons c rest => simp [List.dropWhile_cons, h c rfl]

/-- Membership survives dropWhile backwards. -/
theorem mem_of_mem_dropWhile {p : Char → Bool} {l : List Char} {a : Char}
    (h : a ∈ l.dropWhile p) : a ∈ l :=
  (List.dropWhile_sublist p).subset h

/-- The head of a dropWhile result fails the predicate. -/
theorem head_dropWhile_false (p : Char → Bool) (l : List Char) :
    ∀ c, (l.dropWhile p).head? = some c → p c = false := by
  induction l with
  | nil => simp
  | cons d rest ih =>
    intro c hc
    cases hpd : p d with
    | true => rw [List.dropWhile_cons, if_pos hpd] at hc; exact ih c hc
    | false =>
      rw [List.dropWhile_cons, if_neg (by simp [hpd])] at hc
      simp only [List.head?_cons, Option.some.injEq] at hc
      rw [← hc]; exact hpd

/-- Applying dropWhile twice is the same as once. -/
theorem dropWhile_idem (p : Char → Bool) (l : List Char) :
    (l.dropWhile p).dropWhile p = l.dropWhile p :=
  dropWhile_eq_self_of_head p _ (head_dropWhile_false p l)

/-- A word decomposes into a dropped prefix (all satisfying the predicate)
and its dropWhile remainder. -/
theorem dropWhile_suffix_decomp (p : Char → Bool) (l : List Char) :
    ∃ t, l = t ++ l.dropWhile p ∧ ∀ a ∈ t, p a = true := by
  induction l with
  | nil => exact ⟨[], rfl, by simp⟩
  | cons c rest ih =>
    cases h : p c with
    | true =>
      obtain ⟨t, ht, hall⟩ := ih
      refine ⟨c :: t, ?_, ?_⟩
      · rw [List.dropWhile_cons, if_pos h, List.cons_append, ← ht]
      · intro a ha
        rcases List.mem_cons.mp ha with rfl | ha
        · exact h
        · exact hall a ha
    | false =>
      exact ⟨[], by rw [List.dropWhile_cons, if_neg (by simp [h]), List.nil_append], by simp⟩

/-- A right-strip result is a leading part of the word, the remainder being
whitespace. -/
theorem pyRstrip_decomp (l : List Char) :
    ∃ t, l = pyRstrip l ++ t ∧ ∀ a ∈ t, isPySpace a = true := by
  obtain ⟨t, ht, hall⟩ := dropWhile_suffix_decomp isPySpace l.reverse
  refine ⟨t.reverse, ?_, ?_⟩
  · have h2 := congrArg List.reverse ht
    rw [List.reverse_reverse, List.reverse_append] at h2
    exact h2
  · intro a ha; exact hall a (List.mem_reverse.mp ha)

/-- Membership survives a right strip backwards. -/
theorem mem_pyRstrip {l : List Char} {a : Char} (h : a ∈ pyRstrip l) : a ∈ l := by
  obtain ⟨t, ht, _⟩ := pyRstrip_decomp l
  rw [ht]; exact List.mem_append_left _ h

/-- A non-empty right strip keeps the head of the word. -/
theorem pyRstrip_head? (l : List Char) (h : pyRstrip l ≠ []) :
    (pyRstrip l).head? = l.head? := by
  obtain ⟨t, ht, _⟩ := pyRstrip_decomp l
  cases hr : pyRstrip l with
  | nil => exact absurd hr h
  | cons c u =>
    have hl : l = c :: (u ++ t) := by rw [ht, hr]; rfl
    rw [hl]
    rfl

/-- Right-stripping a non-blank word yields a non-empty, non-blank word. -/
theorem pyRstrip_not_blank (l : List Char) (h : l.all isPySpace = false) :
    pyRstrip l ≠ [] ∧ (pyRstrip l).all isPySpace = false := by
  obtain ⟨t, ht, hall⟩ := pyRstrip_decomp l
  constructor
  · intro hnil
    rw [hnil, List.nil_append] at ht
    have hall2 : l.all isPySpace = true :=
      List.all_eq_true.mpr (by intro a ha; exact hall a (ht ▸ ha))
    rw [hall2] at h; cases h
  · cases hrb : (pyRstrip l).all isPySpace with
    | false => rfl
    | true =>
      exfalso
      have hall2 : l.all isPySpace = true := by
        rw [ht, List.all_append, hrb, Bool.true_and]
        exact List.all_eq_true.mpr hall
      rw [hall2] at h; cases h

/-- Right-stripping twice is the same as once. -/
theorem pyRstrip_idem (l : List Char) : pyRstrip (pyRstrip l) = pyRstrip l := by
  show ((((l.reverse.dropWhile isPySpace).reverse).reverse).dropWhile isPySpace).reverse
    = (l.reverse.dropWhile isPySpace).reverse
  rw [List.reverse_reverse, dropWhile_idem]

/-- A split result is never the empty list of parts. -/
theorem pySplitChar_ne_nil (sep : Char) (l : List Char) : pySplitChar sep l ≠ [] := by
  cases l with
  | nil => simp [pySplitChar]
  | cons c rest =>
    rw [pySplitChar]
    by_cases h : c = sep
    · simp [h]
    · cases hs : pySplitChar sep rest <;> simp [h, hs]

/-- The separator occurs in no part of a split. -/
theorem pySplitChar_sep_not_mem (sep : Char) (l : List Char) :
    ∀ p ∈ pySplitChar sep l, sep ∉ p := by
  induction l with
  | nil =>
    intro p hp
    simp only [pySplitChar, List.mem_singleton] at hp
    subst hp; simp
  | cons c rest ih =>
    intro p hp
    rw [pySplitChar] at hp
    by_cases h : c = sep
    · rw [if_pos h] at hp
      rcases List.mem_cons.mp hp with rfl | hp
      · simp
      · exact ih p hp
    · rw [if_neg h] at hp
      rcases hs : pySplitChar sep rest with _ | ⟨h0, t0⟩
      · exact absurd hs (pySplitChar_ne_nil sep rest)
      · simp only [hs] at hp
        rcases List.mem_cons.mp hp with rfl | hp
        · intro hmem
          rcases List.mem_cons.mp hmem with hc | hmem
          · exact h hc.symm
          · exact ih h0 (by rw [hs]; exact List.mem_cons_self _ _) hmem
        · exact ih p (by rw [hs]; exact List.mem_cons_of_mem _ hp)

/-- Characters of the parts of a split are characters of the word. -/
theorem pySplitChar_mem_subset (sep : Char) (l : List Char) :
    ∀ p ∈ pySplitChar sep l, ∀ a ∈ p, a ∈ l := by
  induction l with
  | nil =>
    intro p hp a ha
    simp only [pySplitChar, List.mem_singleton] at hp
    subst hp; simp at ha
  | cons c rest ih =>
    intro p hp a ha
    rw [pySplitChar] at hp
    by_cases h : c = sep
    · rw [if_pos h] at hp
      rcases List.mem_cons.mp hp with rfl | hp
      · simp at ha
      · exact List.mem_cons_of_mem _ (ih p hp a ha)
    · rw [if_neg h] at hp
      rcases hs : pySplitChar sep rest with _ | ⟨h0, t0⟩
      · exact absurd hs (pySplitChar_ne_nil sep rest)
      · simp only [hs] at hp
        rcases List.mem_cons.mp hp with rfl | hp
        · rcases List.mem_cons.mp ha with rfl | ha
          · exact List.mem_cons_self _ _
          · exact List.mem_cons_of_mem _
              (ih h0 (by rw [hs]; exact List.mem_cons_self _ _) a ha)
        · exact List.mem_cons_of_mem _
            (ih p (by rw [hs]; exact List.mem_cons_of_mem _ hp) a ha)

/-- Splitting a word free of the separator yields that one part. -/
theorem pySplitChar_no_sep (sep : Char) (l : List Char) (h : sep ∉ l) :
    pySplitChar sep l = [l] := by
  induction l with
  | nil => rfl
  | cons c rest ih =>
    have hc : c ≠ sep := fun hc => h (hc ▸ List.mem_cons_self _ _)
    have hrest : sep ∉ rest := fun hm => h (List.mem_cons_of_mem _ hm)
    rw [pySplitChar, if_neg hc, ih hrest]

/-- Splitting after a separator-free leading part peels that part off. -/
theorem pySplitChar_append_sep (sep : Char) (p rest : List Char) (h : sep ∉ p) :
    pySplitChar sep (p ++ sep :: rest) = p :: pySplitChar sep rest := by
  induction p with
  | nil => simp [pySplitChar]
  | cons c q ih =>
    have hc : c ≠ sep := fun hc => h (hc ▸ List.mem_cons_self _ _)
    have hq : sep ∉ q := fun hm => h (List.mem_cons_of_mem _ hm)
    rw [List.cons_append, pySplitChar, if_neg hc, ih hq]

/-- The join of a part before further parts. -/
theorem joinLines_cons (p : List Char) (parts : List (List Char)) (h : parts ≠ []) :
    joinLines (p :: parts) = p ++ '\n' :: joinLines parts := by
  cases parts with
  | nil => exact absurd rfl h
  | cons q rest => rfl

/-- Characters of a join are newlines or characters of the parts. -/
theorem mem_joinLines {a : Char} :
    ∀ parts : List (List Char), a ∈ joinLines parts → a = '\n' ∨ ∃ p ∈ parts, a ∈ p := by
  intro parts
  induction parts with
  | nil => intro h; simp [joinLines] at h
  | cons p rest ih =>
    intro h
    cases rest with
    | nil => exact Or.inr ⟨p, by simp, by simpa [joinLines] using h⟩
    | cons q rest2 =>
      rw [joinLines_cons _ _ (by simp)] at h
      rcases List.mem_append.mp h with h | h
      · exact Or.inr ⟨p, by simp, h⟩
      · rcases List.mem_cons.mp h with rfl | h
        · exact Or.inl rfl
        · rcases ih h with h | ⟨r, hr, ha⟩
          · exact Or.inl h
          · exact Or.inr ⟨r, List.mem_cons_of_mem _ hr, ha⟩

/-- The head of a join whose first part is non-empty. -/
theorem head?_joinLines_cons (p : List Char) (parts : List (List Char)) (hp : p ≠ []) :
    (joinLines (p :: parts)).head? = p.head? := by
  cases parts with
  | nil => rfl
  | cons q rest =>
    rw [joinLines_cons _ _ (by simp)]
    cases p with
    | nil => exact absurd rfl hp
    | cons c u => rfl

/-- Splitting a join of newline-free parts recovers the parts. -/
theorem pySplitChar_joinLines (parts : List (List Char)) (hne : parts ≠ [])
    (h : ∀ p ∈ parts, '\n' ∉ p) :
    pySplitChar '\n' (joinLines parts) = parts := by
  induction parts with
  | nil => exact absurd rfl hne
  | cons p rest ih =>
    cases rest with
    | nil =>
      show pySplitChar '\n' p = [p]
      exact pySplitChar_no_sep _ _ (h p (by simp))
    | cons q rest2 =>
      rw [joinLines_cons _ _ (by simp),
        pySplitChar_append_sep _ _ _ (h p (by simp)),
        ih (by simp) (fun r hr => h r (List.mem_cons_of_mem _ hr))]

/-- A word whose characters avoid the carriage return drops none of them. -/
theorem dropWhile_cr_eq_self {l : List Char} (hcr : '\r' ∉ l) :
    l.dropWhile (· = '\r') = l := by
  apply dropWhile_eq_self_of_head
  intro c hc
  cases l with
  | nil => simp at hc
  | cons d rest =>
    simp only [List.head?_cons, Option.some.injEq] at hc
    subst hc
    simp only [decide_eq_false_iff_not]
    exact fun hb => hcr (hb ▸ List.mem_cons_self _ _)

/-- Space-or-carriage-return characters are Python whitespace. -/
theorem isSpaceCR_isPySpace {c : Char} (h : isSpaceCR c = true) :
    isPySpace c = true := by
  simp only [isSpaceCR, Bool.or_eq_true, decide_eq_true_eq] at h
  rcases h with rfl | rfl <;> rfl

/-- A character that is not Python whitespace is not space-or-CR. -/
theorem isSpaceCR_of_not_isPySpace {c : Char} (h : isPySpace c = false) :
    isSpaceCR c = false := by
  cases hc : isSpaceCR c with
  | false => rfl
  | true => rw [isSpaceCR_isPySpace hc] at h; cases h

/-- Untouched characters: the null filter keeps membership backwards. -/
theorem mem_removeNul {l : List Char} {a : Char} (h : a ∈ removeNul l) : a ∈ l :=
  List.mem_of_mem_filter h

/-- A null-free word is unchanged by the null filter. -/
theorem removeNul_id {l : List Char} (h : '\x00' ∉ l) : removeNul l = l :=
  List.filter_eq_self.mpr fun a ha => by
    simp only [decide_eq_true_eq, ne_eq]
    exact fun hb => h (hb ▸ ha)

/-- The null filter leaves no null byte. -/
theorem removeNul_not_mem (l : List Char) : '\x00' ∉ removeNul l := by
  intro h
  have := List.of_mem_filter h
  simp at this

/-- A carriage-return-free word is unchanged by the CRLF normalization. -/
theorem crlfToLf_id {l : List Char} (h : '\r' ∉ l) : crlfToLf l = l := by
  induction l with
  | nil => rfl
  | cons c rest ih =>
    have hc : c ≠ '\r' := fun hcc => h (hcc ▸ List.mem_cons_self _ _)
    have hrest : '\r' ∉ rest := fun hm => h (List.mem_cons_of_mem _ hm)
    rw [crlfToLf.eq_def]
    split
    · rename_i heq
      cases heq
    · rename_i rest2 heq
      rw [List.cons.injEq] at heq
      exact absurd heq.1 hc
    · rename_i c2 rest2 _ heq
      rw [List.cons.injEq] at heq
      rw [← heq.1, ← heq.2, ih hrest]

/-- An escape-free word is unchanged by the ANSI scan, whatever the fuel. -/
theorem ansiStripF_id (fuel : Nat) (l : List Char) (h : '\x1b' ∉ l) :
    ansiStripF fuel l = l := by
  induction fuel generalizing l with
  | zero => rfl
  | succ fuel ih =>
    cases l with
    | nil => rfl
    | cons c rest =>
      have hc : c ≠ '\x1b' := fun hcc => h (hcc ▸ List.mem_cons_self _ _)
      have hrest : '\x1b' ∉ rest := fun hm => h (List.mem_cons_of_mem _ hm)
      rw [ansiStripF.eq_def]
      simp only [if_neg hc]
      rw [ih rest hrest]

/-- Characters of the ipython-junk scan come from the word. -/
theorem mem_gtJunkTailF {a : Char} :
    ∀ (fuel : Nat) (l : List Char), a ∈ gtJunkTailF fuel l → a ∈ l := by
  intro fuel
  induction fuel with
  | zero => intro l h; exact h
  | succ fuel ih =>
    intro l h
    rw [gtJunkTailF] at h
    split at h
    · rename_i rest heq
      have h2 : a ∈ rest := mem_of_mem_dropWhile (ih _ h)
      have h3 : a ∈ l.dropWhile (· = '\r') := by
        rw [heq]; exact List.mem_cons_of_mem _ (List.mem_cons_of_mem _ h2)
      exact mem_of_mem_dropWhile h3
    · exact h

/-- With adequate fuel, the head of the ipython-junk scan result is neither
space nor carriage return, provided the head of the input is neither. -/
theorem gtJunkTailF_head :
    ∀ (fuel : Nat) (l : List Char), l.length ≤ fuel →
    (∀ c, l.head? = some c → isSpaceCR c = false) →
    ∀ c, (gtJunkTailF fuel l).head? = some c → isSpaceCR c = false := by
  intro fuel
  induction fuel with
  | zero =>
    intro l hf _ c hc
    have hl : l = [] := List.length_eq_zero.mp (Nat.le_zero.mp hf)
    subst hl
    simp [gtJunkTailF] at hc
  | succ fuel ih =>
    intro l hf h c hc
    rw [gtJunkTailF] at hc
    split at hc
    · rename_i rest heq
      refine ih _ ?_ ?_ c hc
      · have h1 : (rest.dropWhile isSpaceCR).length ≤ rest.length :=
          (List.dropWhile_sublist _).length_le
        have h2 : ('\n' :: '>' :: rest).length ≤ l.length := by
          rw [← heq]; exact (List.dropWhile_sublist _).length_le
        simp only [List.length_cons] at h2
        omega
      · intro d hd
        exact head_dropWhile_false isSpaceCR rest d hd
    · exact h c hc

/-- With adequate fuel and a carriage-return-free word, the ipython-junk
scan result never starts with a newline followed by a greater-than sign. -/
theorem gtJunkTailF_not_nlgt :
    ∀ (fuel : Nat) (l : List Char), l.length ≤ fuel → '\r' ∉ l →
    ∀ r, gtJunkTailF fuel l ≠ '\n' :: '>' :: r := by
  intro fuel
  induction fuel with
  | zero =>
    intro l hf _ r h
    have hl : l = [] := List.length_eq_zero.mp (Nat.le_zero.mp hf)
    subst hl
    simp [gtJunkTailF] at h
  | succ fuel ih =>
    intro l hf hcr r h
    rw [gtJunkTailF] at h
    split at h
    · rename_i rest heq
      have hrest : '\r' ∉ rest := by
        intro hm
        have h2 : '\r' ∈ l.dropWhile (· = '\r') := by
          rw [heq]; exact List.mem_cons_of_mem _ (List.mem_cons_of_mem _ hm)
        exact hcr (mem_of_mem_dropWhile h2)
      have hrest2 : '\r' ∉ rest.dropWhile isSpaceCR :=
        fun hm => hrest (mem_of_mem_dropWhile hm)
      refine ih _ ?_ hrest2 r h
      have h1 : (rest.dropWhile isSpaceCR).length ≤ rest.length :=
        (List.dropWhile_sublist _).length_le
      have h2 : ('\n' :: '>' :: rest).length ≤ l.length := by
        rw [← heq]; exact (List.dropWhile_sublist _).length_le
      simp only [List.length_cons] at h2
      omega
    · rename_i hne
      rw [dropWhile_cr_eq_self hcr] at hne
      exact hne r h

/-- A carriage-return-free word not starting with newline-then-greater is
unchanged by the ipython-junk scan, whatever the fuel. -/
theorem gtJunkTailF_eq_self (fuel : Nat) (l : List Char) (hcr : '\r' ∉ l)
    (hngt : ∀ r, l ≠ '\n' :: '>' :: r) : gtJunkTailF fuel l = l := by
  cases fuel with
  | zero => rfl
  | succ fuel =>
    rw [gtJunkTailF]
    split
    · rename_i rest heq
      rw [dropWhile_cr_eq_self hcr] at heq
      exact absurd heq (hngt rest)
    · rfl

/-- Characters of the leading-greater scan come from the word. -/
theorem mem_stripLeadingGtF {a : Char} :
    ∀ (fuel : Nat) (l : List Char), a ∈ stripLeadingGtF fuel l → a ∈ l := by
  intro fuel
  induction fuel with
  | zero => intro l h; exact h
  | succ fuel ih =>
    intro l h
    cases l with
    | nil => exact h
    | cons c rest =>
      rw [stripLeadingGtF] at h
      by_cases hc : c = '>'
      · rw [if_pos hc] at h
        exact List.mem_cons_of_mem _ (mem_of_mem_dropWhile (ih _ h))
      · rwa [if_neg hc] at h

/-- With adequate fuel, the head of the leading-greater scan result is
neither whitespace-like nor a greater-than sign. -/
theorem stripLeadingGtF_head :
    ∀ (fuel : Nat) (l : List Char), l.length ≤ fuel →
    (∀ c, l.head? = some c → isSpaceCR c = false) →
    ∀ c, (stripLeadingGtF fuel l).head? = some c → isSpaceCR c = false ∧ c ≠ '>' := by
  intro fuel
  induction fuel with
  | zero =>
    intro l hf _ c hc
    have hl : l = [] := List.length_eq_zero.mp (Nat.le_zero.mp hf)
    subst hl
    simp [stripLeadingGtF] at hc
  | succ fuel ih =>
    intro l hf h c hc
    cases l with
    | nil => simp [stripLeadingGtF] at hc
    | cons d rest =>
      rw [stripLeadingGtF] at hc
      by_cases hd : d = '>'
      · rw [if_pos hd] at hc
        refine ih _ ?_ ?_ c hc
        · have h1 : (rest.dropWhile isPySpace).length ≤ rest.length :=
            (List.dropWhile_sublist _).length_le
          simp only [List.length_cons] at hf
          omega
        · intro e he
          exact isSpaceCR_of_not_isPySpace (head_dropWhile_false isPySpace rest e he)
      · rw [if_neg hd] at hc
        simp only [List.head?_cons, Option.some.injEq] at hc
        subst hc
        exact ⟨h d rfl, hd⟩

/-- With adequate fuel, the leading-greater scan result never starts with a
newline followed by a greater-than sign, provided the word does not. -/
theorem stripLeadingGtF_not_nlgt :
    ∀ (fuel : Nat) (l : List Char), l.length ≤ fuel →
    (∀ r, l ≠ '\n' :: '>' :: r) →
    ∀ r, stripLeadingGtF fuel l ≠ '\n' :: '>' :: r := by
  intro fuel
  induction fuel with
  | zero =>
    intro l hf _ r h
    have hl : l = [] := List.length_eq_zero.mp (Nat.le_zero.mp hf)
    subst hl
    simp [stripLeadingGtF] at h
  | succ fuel ih =>
    intro l hf hngt r h
    cases l with
    | nil => simp [stripLeadingGtF] at h
    | cons d rest =>
      rw [stripLeadingGtF] at h
      by_cases hd : d = '>'
      · rw [if_pos hd] at h
        refine ih _ ?_ ?_ r h
        · have h1 : (rest.dropWhile isPySpace).length ≤ rest.length :=
            (List.dropWhile_sublist _).length_le
          simp only [List.length_cons] at hf
          omega
        · intro r2 heq
          have hh := head_dropWhile_false isPySpace rest '\n' (by rw [heq]; rfl)
          simp [isPySpace] at hh
      · rw [if_neg hd] at h
        exact hngt r h

/-- A word whose head is not a greater-than sign is unchanged by the
leading-greater scan, whatever the fuel. -/
theorem stripLeadingGtF_eq_self (fuel : Nat) (l : List Char)
    (h : ∀ c, l.head? = some c → c ≠ '>') : stripLeadingGtF fuel l = l := by
  cases fuel with
  | zero => rfl
  | succ fuel =>
    cases l with
    | nil => rfl
    | cons d rest => rw [stripLeadingGtF, if_neg (h d rfl)]

/-- An escape-free word is unchanged by the ANSI removal. -/
theorem ansiStrip_id {l : List Char} (h : '\x1b' ∉ l) : ansiStrip l = l :=
  ansiStripF_id l.length l h

/-- The head of the ipython-junk strip result is neither space nor CR. -/
theorem stripIpyJunk_head (l : List Char) :
    ∀ c, (stripIpyJunk l).head? = some c → isSpaceCR c = false := by
  unfold stripIpyJunk
  exact gtJunkTailF_head l.length _ (List.dropWhile_sublist _).length_le
    (head_dropWhile_false isSpaceCR l)

/-- On a carriage-return-free word, the ipython-junk strip result never
starts with newline-then-greater. -/
theorem stripIpyJunk_not_nlgt (l : List Char) (hcr : '\r' ∉ l) :
    ∀ r, stripIpyJunk l ≠ '\n' :: '>' :: r := by
  unfold stripIpyJunk
  exact gtJunkTailF_not_nlgt l.length _ (List.dropWhile_sublist _).length_le
    (fun hm => hcr (mem_of_mem_dropWhile hm))

/-- Characters of the ipython-junk strip come from the word. -/
theorem mem_stripIpyJunk {a : Char} {l : List Char} (h : a ∈ stripIpyJunk l) :
    a ∈ l :=
  mem_of_mem_dropWhile (mem_gtJunkTailF _ _ h)

/-- A carriage-return-free word with a non-space head and no leading
newline-then-greater is unchanged by the ipython-junk strip. -/
theorem stripIpyJunk_eq_self (l : List Char) (hcr : '\r' ∉ l)
    (hhead : ∀ c, l.head? = some c → isSpaceCR c = false)
    (hngt : ∀ r, l ≠ '\n' :: '>' :: r) : stripIpyJunk l = l := by
  unfold stripIpyJunk
  rw [dropWhile_eq_self_of_head _ _ hhead]
  exact gtJunkTailF_eq_self _ _ hcr hngt

/-- Wrapper head property of the leading-greater strip. -/
theorem stripLeadingGt_head (l : List Char)
    (h : ∀ c, l.head? = some c → isSpaceCR c = false) :
    ∀ c, (stripLeadingGt l).head? = some c → isSpaceCR c = false ∧ c ≠ '>' :=
  stripLeadingGtF_head l.length l le_rfl h

/-- Wrapper no-leading-newline-greater property of the leading-greater strip. -/
theorem stripLeadingGt_not_nlgt (l : List Char)
    (h : ∀ r, l ≠ '\n' :: '>' :: r) :
    ∀ r, stripLeadingGt l ≠ '\n' :: '>' :: r :=
  stripLeadingGtF_not_nlgt l.length l le_rfl h

/-- Characters of the leading-greater strip come from the word. -/
theorem mem_stripLeadingGt {a : Char} {l : List Char} (h : a ∈ stripLeadingGt l) :
    a ∈ l :=
  mem_stripLeadingGtF _ _ h

/-- A word whose head is not a greater-than sign is unchanged by the
leading-greater strip. -/
theorem stripLeadingGt_eq_self (l : List Char)
    (h : ∀ c, l.head? = some c → c ≠ '>') : stripLeadingGt l = l :=
  stripLeadingGtF_eq_self l.length l h

/-- A last element of a list is an element. -/
theorem mem_of_getLast? {α : Type} {m : List α} {p : α}
    (hg : m.getLast? = some p) : p ∈ m := by
  obtain ⟨hne, heq⟩ := List.mem_getLast?_eq_getLast
    (x := p) (show p ∈ m.getLast? by rw [Option.mem_def, hg])
  rw [heq]
  exact List.getLast_mem hne

/-- Characters of a fixed line come from the line. -/
theorem mem_fixLine {a : Char} {l : List Char} (h : a ∈ fixLine l) : a ∈ l := by
  simp only [fixLine] at h
  rcases hg : ((pySplitChar '\r' l).filter fun p => !(p.all isPySpace)).getLast?
    with _ | p
  · simp only [hg] at h; exact h
  · simp only [hg] at h
    have hp : p ∈ pySplitChar '\r' l := List.mem_of_mem_filter (mem_of_getLast? hg)
    exact pySplitChar_mem_subset _ _ p hp a (mem_pyRstrip h)

/-- On a carriage-return-free line, the overwrite rule degenerates to a
right strip of a non-blank line (a blank line is kept verbatim). -/
theorem fixLine_no_cr (l : List Char) (h : '\r' ∉ l) :
    fixLine l = if l.all isPySpace then l else pyRstrip l := by
  simp only [fixLine]
  rw [pySplitChar_no_sep _ _ h]
  cases hb : l.all isPySpace with
  | true => simp [List.filter_cons, hb]
  | false => simp [List.filter_cons, hb]

/-- The overwrite rule keeps the head of a carriage-return-free line. -/
theorem fixLine_head? (l : List Char) (h : '\r' ∉ l) :
    (fixLine l).head? = l.head? := by
  rw [fixLine_no_cr l h]
  cases hb : l.all isPySpace with
  | true => rw [if_pos rfl]
  | false =>
    rw [if_neg (by simp)]
    exact pyRstrip_head? l (pyRstrip_not_blank l hb).1

/-- The overwrite rule is idempotent on carriage-return-free lines. -/
theorem fixLine_idem (l : List Char) (h : '\r' ∉ l) :
    fixLine (fixLine l) = fixLine l := by
  by_cases hb : l.all isPySpace = true
  · have h1 : fixLine l = l := by rw [fixLine_no_cr l h, if_pos hb]
    rw [h1]
    exact h1
  · have hb2 : l.all isPySpace = false := Bool.eq_false_iff.mpr hb
    have h1 : fixLine l = pyRstrip l := by rw [fixLine_no_cr l h, if_neg hb]
    have hcr2 : '\r' ∉ pyRstrip l := fun hm => h (mem_pyRstrip hm)
    obtain ⟨hne, hnb⟩ := pyRstrip_not_blank l hb2
    rw [h1, fixLine_no_cr _ hcr2, if_neg (by simp [hnb]), pyRstrip_idem]

/-- Characters of the line-fixed word are newlines or characters of the
word. -/
theorem mem_fixLines {a : Char} {v : List Char} (h : a ∈ fixLines v) :
    a = '\n' ∨ a ∈ v := by
  unfold fixLines at h
  rcases mem_joinLines _ h with h | ⟨p, hp, ha⟩
  · exact Or.inl h
  · rcases List.mem_map.mp hp with ⟨q, hq, rfl⟩
    exact Or.inr (pySplitChar_mem_subset _ _ q hq a (mem_fixLine ha))

/-- The line loop keeps the head of a carriage-return-free word. -/
theorem fixLines_head? (v : List Char) (hcr : '\r' ∉ v) :
    (fixLines v).head? = v.head? := by
  unfold fixLines
  cases v with
  | nil => rfl
  | cons c v2 =>
    by_cases hc : c = '\n'
    · subst hc
      rw [pySplitChar, if_pos rfl, List.map_cons,
        show fixLine ([] : List Char) = [] from rfl,
        joinLines_cons _ _ (by simp [pySplitChar_ne_nil])]
      rfl
    · rcases hs : pySplitChar '\n' v2 with _ | ⟨h0, t0⟩
      · exact absurd hs (pySplitChar_ne_nil _ _)
      have hsp : pySplitChar '\n' (c :: v2) = (c :: h0) :: t0 := by
        rw [pySplitChar, if_neg hc, hs]
      rw [hsp, List.map_cons]
      have hcrp : '\r' ∉ c :: h0 := by
        intro hm
        exact hcr (pySplitChar_mem_subset '\n' (c :: v2) (c :: h0)
          (by rw [hsp]; exact List.mem_cons_self _ _) '\r' hm)
      have hh : (fixLine (c :: h0)).head? = some c := by
        rw [fixLine_head? _ hcrp]; rfl
      have hne : fixLine (c :: h0) ≠ [] := by
        intro hnil; rw [hnil] at hh; cases hh
      rw [head?_joinLines_cons _ _ hne, hh]
      rfl

/-- On a carriage-return-free word not starting with newline-then-greater,
neither does the line-fixed word. -/
theorem fixLines_not_nlgt (v : List Char) (hcr : '\r' ∉ v)
    (hngt : ∀ r, v ≠ '\n' :: '>' :: r) :
    ∀ r, fixLines v ≠ '\n' :: '>' :: r := by
  intro r h
  cases v with
  | nil => rw [show fixLines [] = [] from rfl] at h; cases h
  | cons c v2 =>
    by_cases hc : c = '\n'
    · subst hc
      have hv2cr : '\r' ∉ v2 := fun hm => hcr (List.mem_cons_of_mem _ hm)
      have hy : fixLines ('\n' :: v2) = '\n' :: fixLines v2 := by
        unfold fixLines
        rw [pySplitChar, if_pos rfl, List.map_cons,
          show fixLine ([] : List Char) = [] from rfl,
          joinLines_cons _ _ (by simp [pySplitChar_ne_nil])]
        rfl
      rw [hy] at h
      rw [List.cons.injEq] at h
      have h3 : v2.head? = some '>' := by
        rw [← fixLines_head? v2 hv2cr, h.2]; rfl
      cases v2 with
      | nil => cases h3
      | cons d v3 =>
        simp only [List.head?_cons, Option.some.injEq] at h3
        subst h3
        exact hngt v3 rfl
    · have h3 : (fixLines (c :: v2)).head? = some c := by
        rw [fixLines_head? _ hcr]; rfl
      rw [h] at h3
      simp only [List.head?_cons, Option.some.injEq] at h3
      exact hc h3.symm

/-- The line loop is idempotent on carriage-return-free words. -/
theorem fixLines_idem (v : List Char) (hcr : '\r' ∉ v) :
    fixLines (fixLines v) = fixLines v := by
  unfold fixLines
  have hparts : ∀ p ∈ (pySplitChar '\n' v).map fixLine, '\n' ∉ p := by
    intro p hp hn
    rcases List.mem_map.mp hp with ⟨q, hq, rfl⟩
    exact pySplitChar_sep_not_mem '\n' v q hq (mem_fixLine hn)
  rw [pySplitChar_joinLines _ (by simp [pySplitChar_ne_nil]) hparts]
  congr 1
  rw [List.map_map]
  apply List.map_congr_left
  intro q hq
  show fixLine (fixLine q) = fixLine q
  apply fixLine_idem
  intro hm
  exact hcr (pySplitChar_mem_subset '\n' v q hq '\r' hm)

/-! ### C8: the idempotence claim about `clean_string` -/

/-- Counterexample to claim C8: `clean_string` is not idempotent.  On the
input consisting of `x`, a carriage return, a space and `a`, the first pass
keeps the carriage-return overwrite result ` a` with its leading space
(the overwrite rule does not strip the left side), while a second pass
removes that leading space as part of its start-anchored cleanup. -/
theorem c8_counterexample :
    clean_string (clean_string "x\r a") ≠ clean_string "x\r a" := by
  decide

/-- Claim C8 (amended): the presentation-time cleaner is idempotent on
every input containing no carriage return and no escape character; on
general inputs a second application can differ (see the counterexample,
and escapes can also reassemble across a pass). -/
theorem c8_clean_idem (s : String) (hcr : '\r' ∉ s.data) (hesc : '\x1b' ∉ s.data) :
    clean_string (clean_string s) = clean_string s := by
  have hx1cr : '\r' ∉ removeNul s.data := fun hm => hcr (mem_removeNul hm)
  have hw2head : ∀ c,
      (stripLeadingGt (stripIpyJunk (removeNul s.data))).head? = some c →
      isSpaceCR c = false ∧ c ≠ '>' :=
    stripLeadingGt_head _ (stripIpyJunk_head _)
  have hw2ngt : ∀ r,
      stripLeadingGt (stripIpyJunk (removeNul s.data)) ≠ '\n' :: '>' :: r :=
    stripLeadingGt_not_nlgt _ (stripIpyJunk_not_nlgt _ hx1cr)
  have hw2cr : '\r' ∉ stripLeadingGt (stripIpyJunk (removeNul s.data)) :=
    fun hm => hx1cr (mem_stripIpyJunk (mem_stripLeadingGt hm))
  have hw2esc : '\x1b' ∉ stripLeadingGt (stripIpyJunk (removeNul s.data)) :=
    fun hm => hesc (mem_removeNul (mem_stripIpyJunk (mem_stripLeadingGt hm)))
  have hw2nul : '\x00' ∉ stripLeadingGt (stripIpyJunk (removeNul s.data)) :=
    fun hm => removeNul_not_mem _ (mem_stripIpyJunk (mem_stripLeadingGt hm))
  have hclean : clean_string s
      = String.mk (fixLines (stripLeadingGt (stripIpyJunk (removeNul s.data)))) := by
    show String.mk (fixLines ((crlfToLf (stripLeadingGt (stripIpyJunk
        (removeNul (ansiStrip s.data))))).dropWhile isSpaceCR)) = _
    rw [ansiStrip_id hesc, crlfToLf_id hw2cr,
      dropWhile_eq_self_of_head _ _ (fun c hc => (hw2head c hc).1)]
  rw [hclean]
  have hycr : '\r' ∉ fixLines (stripLeadingGt (stripIpyJunk (removeNul s.data))) := by
    intro hm
    rcases mem_fixLines hm with h | h
    · exact absurd h (by decide)
    · exact hw2cr h
  have hyesc : '\x1b' ∉ fixLines (stripLeadingGt (stripIpyJunk (removeNul s.data))) := by
    intro hm
    rcases mem_fixLines hm with h | h
    · exact absurd h (by decide)
    · exact hw2esc h
  have hynul : '\x00' ∉ fixLines (stripLeadingGt (stripIpyJunk (removeNul s.data))) := by
    intro hm
    rcases mem_fixLines hm with h | h
    · exact absurd h (by decide)
    · exact hw2nul h
  have hyhead : ∀ c,
      (fixLines (stripLeadingGt (stripIpyJunk (removeNul s.data)))).head? = some c →
      isSpaceCR c = false ∧ c ≠ '>' := by
    intro c hc
    exact hw2head c (by rw [← fixLines_head? _ hw2cr]; exact hc)
  have hyngt := fixLines_not_nlgt _ hw2cr hw2ngt
  show String.mk (fixLines ((crlfToLf (stripLeadingGt (stripIpyJunk
      (removeNul (ansiStrip (fixLines (stripLeadingGt (stripIpyJunk
        (removeNul s.data))))))))).dropWhile isSpaceCR)) = _
  rw [ansiStrip_id hyesc, removeNul_id hynul,
    stripIpyJunk_eq_self _ hycr (fun c hc => (hyhead c hc).1) hyngt,
    stripLeadingGt_eq_self _ (fun c hc => (hyhead c hc).2),
    crlfToLf_id hycr,
    dropWhile_eq_self_of_head _ _ (fun c hc => (hyhead c hc).1),
    fixLines_idem _ hw2cr]

/-- Witness for `c8_clean_idem` at a concrete carriage-return-free and
escape-free input. -/
theorem c8_witness :
    ('\r' ∉ ("> hello \nworld: " : String).data)
    ∧ ('\x1b' ∉ ("> hello \nworld: " : String).data)
    ∧ clean_string (clean_string "> hello \nworld: ") = clean_string "> hello \nworld: " := by
  refine ⟨by decide, by decide, ?_⟩
  exact c8_clean_idem "> hello \nworld: " (by decide) (by decide)

end CodeExec
